import Mathlib

/-!
Verification of the voice-pitch-tracker core against its specification.

The program's Frame Analyzer is `detectPitch` in `src/pitchDetection.ts`; the
stability filter is the history logic inside `analyzeAudio` in `src/App.tsx`.
IEEE floating-point numbers are idealized as real numbers.  The only place
where JavaScript number semantics is not plain real arithmetic on the inputs
the claims quantify over is the RMS gate on an empty buffer: there
`buffer.reduce(...) / buffer.length` is `0/0 = NaN` and `NaN < threshold` is
false, so the gate never fires on an empty buffer; the embedding models this
by the explicit length guard in `rmsGateFires`.  Out-of-range typed-array
reads (which yield `undefined`/NaN in JavaScript, reachable only for
degenerate negative lags) are modelled by `List.getD _ _ 0`; the in-bounds
theorem for positive parameters shows every read the algorithm performs on
that domain is in range, where the two semantics agree.
-/

open Classical

/-- Sensitivity profile: RMS amplitude threshold (`isMobile ? 0.004 : 0.01`). -/
def rmsThresholdOf (isMobile : Bool) : ℝ := if isMobile then 0.004 else 0.01

/-- Sensitivity profile: center-clipping fraction (`isMobile ? 0.3 : 0.5`). -/
def clipPercentOf (isMobile : Bool) : ℝ := if isMobile then 0.3 else 0.5

/-- Sensitivity profile: correlation threshold (`isMobile ? 0.6 : 0.7`). -/
def corrThresholdOf (isMobile : Bool) : ℝ := if isMobile then 0.6 else 0.7

/-- RMS of the buffer: `Math.sqrt(buffer.reduce((s,v) => s + v*v, 0) / buffer.length)`. -/
noncomputable def rmsOf (buffer : List ℝ) : ℝ :=
  Real.sqrt ((buffer.map (fun v => v * v)).sum / buffer.length)

/-- The RMS amplitude gate `if (rms < rmsThreshold) return null`.  For an empty
buffer the JavaScript `rms` is `NaN` and the comparison is false, hence the
`0 < buffer.length` conjunct. -/
def rmsGateFires (buffer : List ℝ) (isMobile : Bool) : Prop :=
  0 < buffer.length ∧ rmsOf buffer < rmsThresholdOf isMobile

/-- Center-clipped copy: `clipped[i] = Math.abs(v) > rms * clipPercent ? v : 0`. -/
noncomputable def clippedOf (buffer : List ℝ) (isMobile : Bool) : List ℝ :=
  buffer.map (fun v => if |v| > rmsOf buffer * clipPercentOf isMobile then v else 0)

/-- `minPeriod = Math.floor(sampleRate / maxFrequency)`. -/
noncomputable def minPeriodOf (sampleRate maxFrequency : ℝ) : ℤ :=
  ⌊sampleRate / maxFrequency⌋

/-- `maxPeriod = Math.ceil(sampleRate / minFrequency)`. -/
noncomputable def maxPeriodOf (sampleRate minFrequency : ℝ) : ℤ :=
  ⌈sampleRate / minFrequency⌉

/-- The lags examined by the correlation loop
`for (offset = minPeriod; offset < maxPeriod && offset < clipped.length / 2; offset++)`:
consecutive integers from `minPeriod` while both constant strict upper bounds
hold.  For an integer `offset`, `offset < n / 2` is equivalent to
`offset < (n + 1) / 2` with integer division (validated by `lagsOf_mem_iff`). -/
def lagsOf (minPeriod maxPeriod : ℤ) (n : ℕ) : List ℤ :=
  (List.range (min maxPeriod (((n : ℤ) + 1) / 2) - minPeriod).toNat).map
    (fun (i : ℕ) => minPeriod + (i : ℤ))

/-- Normalized autocorrelation at one lag: the loop body computing
`correlation`, `energy1`, `energy2` over `i < clipped.length - offset` and
`correlation / Math.sqrt(energy1 * energy2 + 1e-10)`. -/
noncomputable def normCorrAt (clipped : List ℝ) (offset : ℤ) : ℝ :=
  let m := ((clipped.length : ℤ) - offset).toNat
  let correlation :=
    ((List.range m).map (fun (i : ℕ) =>
      clipped.getD i 0 * clipped.getD ((i : ℤ) + offset).toNat 0)).sum
  let energy1 :=
    ((List.range m).map (fun (i : ℕ) => clipped.getD i 0 * clipped.getD i 0)).sum
  let energy2 :=
    ((List.range m).map (fun (i : ℕ) =>
      clipped.getD ((i : ℤ) + offset).toNat 0 *
        clipped.getD ((i : ℤ) + offset).toNat 0)).sum
  correlation / Real.sqrt (energy1 * energy2 + 1e-10)

/-- The full normalized-correlation curve `corrValues`, one value per examined lag. -/
noncomputable def corrValuesOf (buffer : List ℝ)
    (sampleRate minFrequency maxFrequency : ℝ) (isMobile : Bool) : List ℝ :=
  (lagsOf (minPeriodOf sampleRate maxFrequency) (maxPeriodOf sampleRate minFrequency)
    buffer.length).map (normCorrAt (clippedOf buffer isMobile))

/-- Strict local maxima of the curve:
`for (i = 1; i < corrValues.length - 1; i++) if (corrValues[i] > corrValues[i-1] && corrValues[i] > corrValues[i+1]) peaks.push({offset: minPeriod + i, value: corrValues[i]})`. -/
noncomputable def peaksOf (minPeriod : ℤ) (corrValues : List ℝ) : List (ℤ × ℝ) :=
  ((List.range corrValues.length).filter (fun (i : ℕ) =>
      decide (0 < i ∧ i + 1 < corrValues.length ∧
        corrValues.getD i 0 > corrValues.getD (i - 1) 0 ∧
        corrValues.getD i 0 > corrValues.getD (i + 1) 0))).map
    (fun (i : ℕ) => (minPeriod + (i : ℤ), corrValues.getD i 0))

/-- The peak list produced by a call to `detectPitch`. -/
noncomputable def peaksOfCall (buffer : List ℝ)
    (sampleRate minFrequency maxFrequency : ℝ) (isMobile : Bool) : List (ℤ × ℝ) :=
  peaksOf (minPeriodOf sampleRate maxFrequency)
    (corrValuesOf buffer sampleRate minFrequency maxFrequency isMobile)

/-- `globalMax = Math.max(...peaks.map(p => p.value))` for the nonempty list
`p₀ :: rest`. -/
noncomputable def globalMaxVal (p₀ : ℤ × ℝ) (rest : List (ℤ × ℝ)) : ℝ :=
  rest.foldl (fun m p => max m p.2) p₀.2

/-- Octave-safe selection: `bestPeak = peaks[0]; for (peak of peaks) if
(peak.value >= globalMax * 0.85) { bestPeak = peak; break; }` — the first
peak within the acceptance band, defaulting to the first peak. -/
noncomputable def selectedPeak (peaks : List (ℤ × ℝ)) : Option (ℤ × ℝ) :=
  match peaks with
  | [] => none
  | p₀ :: rest =>
    some ((((p₀ :: rest).find?
      (fun p => decide (p.2 ≥ globalMaxVal p₀ rest * 0.85))).getD p₀))

/-- Parabolic sub-sample refinement of the selected integer offset (step 7 of
the source): both range guards, then
`delta = (y0 - y2) / (2 * (y0 - 2*y1 + y2))` if `|denom| > 1e-10`. -/
noncomputable def refinedOffset (minPeriod : ℤ) (corrValues : List ℝ) (off : ℤ) : ℝ :=
  if off > minPeriod ∧ off < minPeriod + (corrValues.length : ℤ) - 1 then
    let idx := (off - minPeriod).toNat
    if 0 < idx ∧ (idx : ℤ) < (corrValues.length : ℤ) - 1 then
      let y0 := corrValues.getD (idx - 1) 0
      let y1 := corrValues.getD idx 0
      let y2 := corrValues.getD (idx + 1) 0
      let denom := y0 - 2 * y1 + y2
      if |denom| > 1e-10 then (off : ℝ) + (y0 - y2) / (2 * denom) else (off : ℝ)
    else (off : ℝ)
  else (off : ℝ)

/-- The Frame Analyzer `detectPitch(buffer, sampleRate, minFrequency,
maxFrequency, isMobile)` of `src/pitchDetection.ts`. -/
noncomputable def detectPitch (buffer : List ℝ)
    (sampleRate minFrequency maxFrequency : ℝ) (isMobile : Bool) : Option ℝ :=
  if rmsGateFires buffer isMobile then none
  else
    match selectedPeak (peaksOfCall buffer sampleRate minFrequency maxFrequency isMobile) with
    | none => none
    | some bestPeak =>
      if bestPeak.2 < corrThresholdOf isMobile then none
      else some (sampleRate /
        refinedOffset (minPeriodOf sampleRate maxFrequency)
          (corrValuesOf buffer sampleRate minFrequency maxFrequency isMobile) bestPeak.1)

/-- The stability filter of `analyzeAudio` in `src/App.tsx`: purge timestamps
with `timestamp > now - 2000` kept, append `now` when a frequency was
detected, and release the raw estimate only when at least 2 recent detections
remain.  Returns the updated history and the released estimate. -/
def stabilityUpdate (history : List ℤ) (rawEstimate : Option ℝ) (now : ℤ) :
    List ℤ × Option ℝ :=
  let purged := history.filter (fun t => decide (t > now - 2000))
  let updated := if rawEstimate.isSome then purged ++ [now] else purged
  (updated, if 2 ≤ updated.length then rawEstimate else none)

/-- A period-2 comb buffer used for concrete end-to-end evaluation: with
`sampleRate = 100`, `minFrequency = 25`, `maxFrequency = 100` the examined
lags are `[1, 2, 3]` and the detector returns `100 / 2 = 50`. -/
def comb8 : List ℝ := [1, 0, 1, 0, 1, 0, 1, 0]

/-- A buffer with one sample exactly at the clipping threshold:
its RMS is `1`, so `|buffer[0]| = 1/2` equals `rms * clipPercent` for the
standard profile. -/
noncomputable def clipEdgeB : List ℝ := [1 / 2, 2, 1 / 2, 1 / 2, 1 / 2]

/-- A ±1 buffer whose only correlation-curve local maximum (with
`sampleRate = 100`, `minFrequency = 20`, `maxFrequency = 100`, lags
`[1, 2, 3, 4]`) has a negative value, so no peak reaches 85% of the maximum
peak value. -/
def negPeakB : List ℝ := [1, 1, -1, 1, -1, -1, 1, 1, 1, -1]

/-! ### Shared helper lemmas -/

theorem lagsOf_mem (minP maxP : ℤ) (n : ℕ) (k : ℤ) :
    k ∈ lagsOf minP maxP n ↔ minP ≤ k ∧ k < maxP ∧ 2 * k < (n : ℤ) := by
  simp only [lagsOf, List.mem_map, List.mem_range]
  constructor
  · rintro ⟨i, hi, rfl⟩
    omega
  · rintro ⟨h1, h2, h3⟩
    exact ⟨(k - minP).toNat, by omega, by omega⟩

theorem mem_peaksOf {minP : ℤ} {cv : List ℝ} {p : ℤ × ℝ} (hp : p ∈ peaksOf minP cv) :
    ∃ i : ℕ, 0 < i ∧ i + 1 < cv.length ∧
      cv.getD i 0 > cv.getD (i - 1) 0 ∧ cv.getD i 0 > cv.getD (i + 1) 0 ∧
      p = (minP + (i : ℤ), cv.getD i 0) := by
  simp only [peaksOf, List.mem_map, List.mem_filter, List.mem_range,
    decide_eq_true_eq] at hp
  obtain ⟨i, ⟨_, h0, h1, hgt1, hgt2⟩, rfl⟩ := hp
  exact ⟨i, h0, h1, hgt1, hgt2, rfl⟩

theorem peaksOf_sorted (minP : ℤ) (cv : List ℝ) :
    (peaksOf minP cv).Pairwise (fun p q => p.1 < q.1) := by
  unfold peaksOf
  refine List.Pairwise.map _ (fun a b hab => ?_) ((List.pairwise_lt_range _).filter _)
  simpa using hab

theorem find?_min_of_sorted {P : ℤ × ℝ → Bool} :
    ∀ {l : List (ℤ × ℝ)} {x : ℤ × ℝ},
      l.Pairwise (fun p q => p.1 < q.1) → l.find? P = some x →
      ∀ y ∈ l, P y = true → x.1 ≤ y.1
  | [], x, _, h => by simp at h
  | a :: l, x, hs, h => by
    rcases List.pairwise_cons.mp hs with ⟨ha, hl⟩
    intro y hy hPy
    by_cases hPa : P a = true
    · rw [List.find?_cons_of_pos _ hPa] at h
      obtain rfl : a = x := by injection h
      rcases List.mem_cons.mp hy with rfl | hy'
      · exact le_rfl
      · exact le_of_lt (ha y hy')
    · rw [List.find?_cons_of_neg _ hPa] at h
      rcases List.mem_cons.mp hy with rfl | hy'
      · exact absurd hPy hPa
      · exact find?_min_of_sorted hl h y hy' hPy

theorem le_foldl_max (l : List (ℤ × ℝ)) (a : ℝ) :
    a ≤ l.foldl (fun m p => max m p.2) a := by
  induction l generalizing a with
  | nil => simp
  | cons x l ih => exact le_trans (le_max_left _ _) (ih _)

theorem mem_le_foldl_max (l : List (ℤ × ℝ)) (a : ℝ) :
    ∀ p ∈ l, p.2 ≤ l.foldl (fun m p => max m p.2) a := by
  induction l generalizing a with
  | nil => simp
  | cons x l ih =>
    intro p hp
    rcases List.mem_cons.mp hp with rfl | hp'
    · exact le_trans (le_max_right _ _) (le_foldl_max _ _)
    · exact ih _ p hp'

theorem foldl_max_eq_or_mem (l : List (ℤ × ℝ)) (a : ℝ) :
    l.foldl (fun m p => max m p.2) a = a ∨
      ∃ p ∈ l, l.foldl (fun m p => max m p.2) a = p.2 := by
  induction l generalizing a with
  | nil => left; rfl
  | cons x l ih =>
    rcases ih (max a x.2) with h | ⟨p, hp, h⟩
    · rcases max_choice a x.2 with hm | hm
      · left; simpa [hm] using h
      · right; exact ⟨x, List.mem_cons_self _ _, by simpa [hm] using h⟩
    · right; exact ⟨p, List.mem_cons_of_mem _ hp, h⟩

theorem le_globalMaxVal (p₀ : ℤ × ℝ) (rest : List (ℤ × ℝ)) :
    ∀ p ∈ p₀ :: rest, p.2 ≤ globalMaxVal p₀ rest := by
  intro p hp
  rcases List.mem_cons.mp hp with rfl | hp'
  · exact le_foldl_max _ _
  · exact mem_le_foldl_max _ _ p hp'

theorem globalMaxVal_mem (p₀ : ℤ × ℝ) (rest : List (ℤ × ℝ)) :
    ∃ p ∈ p₀ :: rest, globalMaxVal p₀ rest = p.2 := by
  rcases foldl_max_eq_or_mem rest p₀.2 with h | ⟨p, hp, h⟩
  · exact ⟨p₀, List.mem_cons_self _ _, h⟩
  · exact ⟨p, List.mem_cons_of_mem _ hp, h⟩

theorem selectedPeak_mem {l : List (ℤ × ℝ)} {q : ℤ × ℝ}
    (h : selectedPeak l = some q) : q ∈ l := by
  match l with
  | [] => simp [selectedPeak] at h
  | p₀ :: rest =>
    simp only [selectedPeak, Option.some.injEq] at h
    cases hf : (p₀ :: rest).find? (fun p => decide (p.2 ≥ globalMaxVal p₀ rest * 0.85)) with
    | none => rw [hf] at h; simp [← h]
    | some x => rw [hf] at h; simp at h; exact h ▸ List.mem_of_find?_eq_some hf

theorem parabolic_delta_lt {y0 y1 y2 : ℝ} (h0 : y0 < y1) (h2 : y2 < y1) :
    |(y0 - y2) / (2 * (y0 - 2 * y1 + y2))| < 1 / 2 := by
  have hd : y0 - 2 * y1 + y2 < 0 := by linarith
  have habs : |y0 - y2| < -(y0 - 2 * y1 + y2) := abs_lt.mpr ⟨by linarith, by linarith⟩
  rw [abs_div, abs_mul, abs_two, abs_of_neg hd]
  rw [div_lt_iff₀ (by linarith : (0 : ℝ) < 2 * -(y0 - 2 * y1 + y2))]
  linarith

theorem mul_sqrt_lt_mul_sqrt {a b x y : ℝ} (ha : 0 ≤ a) (hb : 0 ≤ b) (hx : 0 ≤ x)
    (h : a ^ 2 * x < b ^ 2 * y) : a * Real.sqrt x < b * Real.sqrt y := by
  have hy : 0 ≤ y := by nlinarith [sq_nonneg a, sq_nonneg b]
  calc a * Real.sqrt x = Real.sqrt (a ^ 2 * x) := by
        rw [Real.sqrt_mul (by positivity), Real.sqrt_sq ha]
    _ < Real.sqrt (b ^ 2 * y) := Real.sqrt_lt_sqrt (by positivity) h
    _ = b * Real.sqrt y := by rw [Real.sqrt_mul (by positivity), Real.sqrt_sq hb]

theorem div_sqrt_lt_div_sqrt {A B X Y : ℝ} (hX : 0 < X) (hY : 0 < Y)
    (h : A * Real.sqrt Y < B * Real.sqrt X) : A / Real.sqrt X < B / Real.sqrt Y := by
  rw [div_lt_div_iff₀ (Real.sqrt_pos.mpr hX) (Real.sqrt_pos.mpr hY)]
  exact h

theorem rmsThresholdOf_pos (m : Bool) : 0 < rmsThresholdOf m := by
  cases m <;> norm_num [rmsThresholdOf]

theorem clipPercentOf_nonneg (m : Bool) : 0 ≤ clipPercentOf m := by
  cases m <;> norm_num [clipPercentOf]

theorem getD_eq_zero_of_all {l : List ℝ} (h : ∀ x ∈ l, x = 0) (i : ℕ) :
    l.getD i 0 = 0 := by
  rcases lt_or_ge i l.length with hi | hi
  · rw [List.getD_eq_getElem _ _ hi]
    exact h _ (l.getElem_mem hi)
  · exact List.getD_eq_default _ _ hi

theorem normCorrAt_nil (k : ℤ) : normCorrAt [] k = 0 := by
  simp [normCorrAt]

theorem peaksOf_of_zero {minP : ℤ} {cv : List ℝ} (h : ∀ i : ℕ, cv.getD i 0 = 0) :
    peaksOf minP cv = [] := by
  unfold peaksOf
  rw [List.map_eq_nil_iff, List.filter_eq_nil_iff]
  intro i _
  rw [decide_eq_true_eq]
  rintro ⟨_, _, hlt, _⟩
  rw [h i, h (i - 1)] at hlt
  exact lt_irrefl 0 hlt

theorem peaksOfCall_nil (sr mn mx : ℝ) (m : Bool) :
    peaksOfCall [] sr mn mx m = [] := by
  unfold peaksOfCall
  apply peaksOf_of_zero
  intro i
  apply getD_eq_zero_of_all
  intro x hx
  unfold corrValuesOf at hx
  obtain ⟨k, _, rfl⟩ := List.mem_map.mp hx
  show normCorrAt (clippedOf [] m) k = 0
  rw [show clippedOf [] m = [] from rfl]
  exact normCorrAt_nil k

theorem detectPitch_nil (sr mn mx : ℝ) (m : Bool) : detectPitch [] sr mn mx m = none := by
  have hg : ¬ rmsGateFires [] m := by simp [rmsGateFires]
  unfold detectPitch
  rw [if_neg hg, peaksOfCall_nil]
  rfl

theorem lagsOf_nil_of_nonneg {minP : ℤ} (maxP : ℤ) (h : 0 ≤ minP) :
    lagsOf minP maxP 0 = [] := by
  unfold lagsOf
  have h1 : min maxP ((((0 : ℕ) : ℤ) + 1) / 2) - minP ≤ 0 := by
    have := min_le_right maxP ((((0 : ℕ) : ℤ) + 1) / 2)
    omega
  rw [Int.toNat_of_nonpos h1]
  rfl

/-! ### Claim theorems -/

/-- **C2**: the stability-filter update first removes every stored timestamp
`t` with `t ≤ now - 2000`, then appends `now` exactly when the raw estimate is
present; its output is the raw estimate itself when the resulting history has
at least 2 entries and absent otherwise — in particular the output is always
either exactly the raw estimate or absent, never a modified frequency. -/
theorem stabilityUpdate_spec (history : List ℤ) (rawEstimate : Option ℝ) (now : ℤ) :
    (stabilityUpdate history rawEstimate now).1 =
        history.filter (fun t => decide (¬ t ≤ now - 2000)) ++
          (if rawEstimate.isSome then [now] else []) ∧
    (2 ≤ (stabilityUpdate history rawEstimate now).1.length →
      (stabilityUpdate history rawEstimate now).2 = rawEstimate) ∧
    ((stabilityUpdate history rawEstimate now).1.length < 2 →
      (stabilityUpdate history rawEstimate now).2 = none) ∧
    ((stabilityUpdate history rawEstimate now).2 = rawEstimate ∨
      (stabilityUpdate history rawEstimate now).2 = none) := by
  have hfil : history.filter (fun t => decide (t > now - 2000)) =
      history.filter (fun t => decide (¬ t ≤ now - 2000)) := by
    apply List.filter_congr
    intro t _
    simp [not_le]
  have he : stabilityUpdate history rawEstimate now =
      (history.filter (fun t => decide (t > now - 2000)) ++
          (if rawEstimate.isSome then [now] else []),
        if 2 ≤ (history.filter (fun t => decide (t > now - 2000)) ++
            (if rawEstimate.isSome then [now] else [])).length
          then rawEstimate else none) := by
    unfold stabilityUpdate
    cases h : rawEstimate.isSome <;> simp [h]
  rw [he]
  dsimp only
  refine ⟨by rw [hfil], fun h2 => if_pos h2, fun h2 => if_neg (by omega), ?_⟩
  split_ifs <;> simp

theorem stabilityUpdate_spec_witness :
    (stabilityUpdate [8500, 9100] (some 220) 10000).2 = some 220 :=
  (stabilityUpdate_spec [8500, 9100] (some 220) 10000).2.1 (by decide)

/-- **C8**: `detectPitch` is deterministic — two calls with identical buffer
contents, sample rate, frequency bounds and sensitivity flag give identical
results (it is a pure function of its arguments, with no hidden state). -/
theorem detectPitch_deterministic (b₁ b₂ : List ℝ) (sr₁ sr₂ mn₁ mn₂ mx₁ mx₂ : ℝ)
    (m₁ m₂ : Bool) (hb : b₁ = b₂) (hsr : sr₁ = sr₂) (hmn : mn₁ = mn₂)
    (hmx : mx₁ = mx₂) (hm : m₁ = m₂) :
    detectPitch b₁ sr₁ mn₁ mx₁ m₁ = detectPitch b₂ sr₂ mn₂ mx₂ m₂ := by
  subst hb hsr hmn hmx hm
  rfl

theorem detectPitch_deterministic_witness :
    detectPitch [0.5] 48000 105 400 false = detectPitch [0.5] 48000 105 400 false :=
  detectPitch_deterministic [0.5] [0.5] 48000 48000 105 105 400 400 false false
    rfl rfl rfl rfl rfl

/-- **C4** (behaviour of the code at a malformed input): on a zero-length
buffer the call silently returns the absent result; no defensive check or
precondition failure is triggered anywhere in `detectPitch`, contrary to the
specification's fail-fast requirement. -/
theorem detectPitch_malformed_silent : detectPitch [] 48000 105 400 false = none :=
  detectPitch_nil 48000 105 400 false

/-- **C5**: for every buffer consisting entirely of zero samples, and every
sample rate, frequency bounds and sensitivity profile, `detectPitch` returns
absent. -/
theorem detectPitch_all_zeros (b : List ℝ) (sr mn mx : ℝ) (m : Bool)
    (hz : ∀ x ∈ b, x = 0) : detectPitch b sr mn mx m = none := by
  rcases eq_or_ne b [] with rfl | hne
  · exact detectPitch_nil sr mn mx m
  · have hlen : 0 < b.length := List.length_pos.mpr hne
    have hsum : (b.map (fun v => v * v)).sum = 0 := by
      apply List.sum_eq_zero
      intro x hx
      obtain ⟨v, hv, rfl⟩ := List.mem_map.mp hx
      rw [hz v hv]
      ring
    have hrms : rmsOf b = 0 := by
      unfold rmsOf
      rw [hsum, zero_div, Real.sqrt_zero]
    have hg : rmsGateFires b m := ⟨hlen, by rw [hrms]; exact rmsThresholdOf_pos m⟩
    unfold detectPitch
    rw [if_pos hg]

theorem detectPitch_all_zeros_witness :
    (∀ x ∈ ([0, 0, 0, 0] : List ℝ), x = 0) ∧
    detectPitch [0, 0, 0, 0] 48000 85 400 false = none :=
  ⟨by simp, detectPitch_all_zeros [0, 0, 0, 0] 48000 85 400 false (by simp)⟩

/-- **C6**: the set of lags examined by the correlation stage is exactly the
integers `lag` with `⌊sampleRate/maxFrequency⌋ ≤ lag`,
`lag < ⌈sampleRate/minFrequency⌉` and `lag < bufferLength / 2`, and the
correlation curve consists of exactly one normalized value per such lag. -/
theorem detectPitch_lags_exact (sampleRate minFrequency maxFrequency : ℝ)
    (buffer : List ℝ) (isMobile : Bool) (lag : ℤ) :
    (lag ∈ lagsOf (minPeriodOf sampleRate maxFrequency)
        (maxPeriodOf sampleRate minFrequency) buffer.length ↔
      ⌊sampleRate / maxFrequency⌋ ≤ lag ∧ lag < ⌈sampleRate / minFrequency⌉ ∧
        (lag : ℝ) < (buffer.length : ℝ) / 2) ∧
    corrValuesOf buffer sampleRate minFrequency maxFrequency isMobile =
      (lagsOf (minPeriodOf sampleRate maxFrequency)
        (maxPeriodOf sampleRate minFrequency) buffer.length).map
        (normCorrAt (clippedOf buffer isMobile)) := by
  refine ⟨?_, rfl⟩
  rw [lagsOf_mem]
  have hhalf : ((lag : ℝ) < (buffer.length : ℝ) / 2) ↔ (2 * lag < (buffer.length : ℤ)) := by
    rw [lt_div_iff₀ (by norm_num : (0 : ℝ) < 2)]
    constructor
    · intro h
      have h2 : ((2 * lag : ℤ) : ℝ) < ((buffer.length : ℤ) : ℝ) := by push_cast; linarith
      exact_mod_cast h2
    · intro h
      have h2 : ((2 * lag : ℤ) : ℝ) < ((buffer.length : ℤ) : ℝ) := by exact_mod_cast h
      push_cast at h2
      linarith
  rw [hhalf]
  unfold minPeriodOf maxPeriodOf
  exact Iff.rfl

/-- **C9**: with positive sample rate and positive frequency bounds (covering
the boundary cases `bufferLength = 2 * maxPeriod` and degenerate
`minPeriod = 0`), every buffer read of the correlation loop and every
correlation-curve read behind a peak is in bounds, and the (total) function
returns a result. -/
theorem detectPitch_reads_in_bounds (b : List ℝ) (sr mn mx : ℝ) (m : Bool)
    (hsr : 0 < sr) (hmn : 0 < mn) (hmx : 0 < mx) :
    (∀ k ∈ lagsOf (minPeriodOf sr mx) (maxPeriodOf sr mn) b.length,
       0 ≤ k ∧ ∀ i : ℕ, i < ((b.length : ℤ) - k).toNat →
         i < b.length ∧ ((i : ℤ) + k).toNat < b.length) ∧
    (∀ p ∈ peaksOfCall b sr mn mx m, ∃ i : ℕ, 0 < i ∧
       i + 1 < (corrValuesOf b sr mn mx m).length ∧
       p = (minPeriodOf sr mx + (i : ℤ), (corrValuesOf b sr mn mx m).getD i 0)) := by
  constructor
  · intro k hk
    rw [lagsOf_mem] at hk
    have h0 : 0 ≤ minPeriodOf sr mx :=
      Int.floor_nonneg.mpr (le_of_lt (div_pos hsr hmx))
    refine ⟨by omega, fun i hi => ⟨by omega, by omega⟩⟩
  · intro p hp
    unfold peaksOfCall at hp
    obtain ⟨i, h1, h2, _, _, rfl⟩ := mem_peaksOf hp
    exact ⟨i, h1, h2, rfl⟩

theorem detectPitch_reads_in_bounds_witness :
    (0 : ℝ) < 150 ∧ (0 : ℝ) < 25 ∧ (0 : ℝ) < 200 ∧
    ((∀ k ∈ lagsOf (minPeriodOf 150 200) (maxPeriodOf 150 25)
        (List.replicate 12 (0 : ℝ)).length,
       0 ≤ k ∧ ∀ i : ℕ, i < (((List.replicate 12 (0 : ℝ)).length : ℤ) - k).toNat →
         i < (List.replicate 12 (0 : ℝ)).length ∧
           ((i : ℤ) + k).toNat < (List.replicate 12 (0 : ℝ)).length) ∧
    (∀ p ∈ peaksOfCall (List.replicate 12 (0 : ℝ)) 150 25 200 false, ∃ i : ℕ, 0 < i ∧
       i + 1 < (corrValuesOf (List.replicate 12 (0 : ℝ)) 150 25 200 false).length ∧
       p = (minPeriodOf 150 200 + (i : ℤ),
         (corrValuesOf (List.replicate 12 (0 : ℝ)) 150 25 200 false).getD i 0))) :=
  ⟨by norm_num, by norm_num, by norm_num,
    detectPitch_reads_in_bounds (List.replicate 12 (0 : ℝ)) 150 25 200 false
      (by norm_num) (by norm_num) (by norm_num)⟩

/-- **C10** (amended): for a zero-length buffer `detectPitch` returns absent
without error for every parameter choice; moreover with nonnegative sample
rate and positive `maxFrequency` the RMS gate does not fire, no correlation
lags are examined, and the peak list is empty (the empty-peak branch returns
`null`). -/
theorem detectPitch_empty_buffer (sr mn mx : ℝ) (m : Bool) :
    detectPitch [] sr mn mx m = none ∧
    (0 ≤ sr → 0 < mx →
      ¬ rmsGateFires [] m ∧
      lagsOf (minPeriodOf sr mx) (maxPeriodOf sr mn) ([] : List ℝ).length = [] ∧
      peaksOfCall [] sr mn mx m = []) := by
  refine ⟨detectPitch_nil sr mn mx m,
    fun hsr hmx => ⟨by simp [rmsGateFires], ?_, peaksOfCall_nil sr mn mx m⟩⟩
  exact lagsOf_nil_of_nonneg _ (Int.floor_nonneg.mpr (div_nonneg hsr (le_of_lt hmx)))

theorem detectPitch_empty_buffer_witness :
    ((0 : ℝ) ≤ 48000) ∧ ((0 : ℝ) < 400) ∧
    detectPitch [] 48000 105 400 false = none ∧
    (¬ rmsGateFires [] false ∧
      lagsOf (minPeriodOf 48000 400) (maxPeriodOf 48000 105) ([] : List ℝ).length = [] ∧
      peaksOfCall [] 48000 105 400 false = []) :=
  ⟨by norm_num, by norm_num, (detectPitch_empty_buffer 48000 105 400 false).1,
    (detectPitch_empty_buffer 48000 105 400 false).2 (by norm_num) (by norm_num)⟩

/-- **C10** (counterexample to the claim as stated): for the zero-length buffer
with `sampleRate = -150`, `minFrequency = 99`, `maxFrequency = 100`, the loop
bounds do admit an examined lag (`minPeriod = -2 < min maxPeriod (length/2) = -1`),
so "no correlation lags are examined" fails for that sample rate, although the
result is still absent. -/
theorem detectPitch_empty_buffer_cex :
    lagsOf (minPeriodOf (-150) 100) (maxPeriodOf (-150) 99) ([] : List ℝ).length = [-2] ∧
    detectPitch [] (-150) 99 100 false = none := by
  constructor
  · have h1 : minPeriodOf (-150) 100 = -2 := by
      unfold minPeriodOf
      rw [Int.floor_eq_iff]
      norm_num
    have h2 : maxPeriodOf (-150) 99 = -1 := by
      unfold maxPeriodOf
      rw [Int.ceil_eq_iff]
      norm_num
    rw [show ([] : List ℝ).length = 0 from rfl, h1, h2]
    decide
  · exact detectPitch_nil (-150) 99 100 false

theorem rmsOf_nonneg (b : List ℝ) : 0 ≤ rmsOf b := Real.sqrt_nonneg _

theorem clippedOf_getD (b : List ℝ) (m : Bool) (i : ℕ) :
    (clippedOf b m).getD i 0 =
      if |b.getD i 0| > rmsOf b * clipPercentOf m then b.getD i 0 else 0 := by
  rcases lt_or_ge i b.length with hi | hi
  · have hlen : i < (clippedOf b m).length := by
      unfold clippedOf
      rw [List.length_map]
      exact hi
    rw [List.getD_eq_getElem _ _ hlen, List.getD_eq_getElem _ _ hi]
    unfold clippedOf
    simp [List.getElem_map]
  · have h1 : (clippedOf b m).length ≤ i := by
      unfold clippedOf
      rw [List.length_map]
      exact hi
    rw [List.getD_eq_default _ _ h1, List.getD_eq_default _ _ hi, abs_zero,
      if_neg (not_lt.mpr (mul_nonneg (rmsOf_nonneg b) (clipPercentOf_nonneg m)))]

/-- **C7** (amended): after the RMS stage, the clipped buffer satisfies
`clipped[i] = buffer[i]` when `|buffer[i]|` is strictly greater than
`RMS × clipPercent` and `clipped[i] = 0` otherwise — in particular a sample
whose absolute value equals the threshold is zeroed, not passed through — with
`clipPercent` 0.5 for the standard profile and 0.3 for the heightened one. -/
theorem clippedOf_spec (b : List ℝ) (m : Bool) (i : ℕ) :
    (clippedOf b m).getD i 0 =
      (if |b.getD i 0| > rmsOf b * clipPercentOf m then b.getD i 0 else 0) ∧
    clipPercentOf false = 0.5 ∧ clipPercentOf true = 0.3 :=
  ⟨clippedOf_getD b m i, rfl, rfl⟩

/-- **C7** (counterexample to the claim as stated): in the buffer
`[1/2, 2, 1/2, 1/2, 1/2]` (RMS exactly 1, which passes the RMS gate), sample 0
has absolute value exactly `RMS × clipPercent = 1/2` — not below the
threshold, so the claim says it passes through unchanged — yet the code zeroes
it. -/
theorem clippedOf_edge_cex :
    ¬ rmsGateFires clipEdgeB false ∧
    ¬ (|clipEdgeB.getD 0 0| < rmsOf clipEdgeB * clipPercentOf false) ∧
    clipEdgeB.getD 0 0 = 1 / 2 ∧
    (clippedOf clipEdgeB false).getD 0 0 = 0 ∧
    (clippedOf clipEdgeB false).getD 0 0 ≠ clipEdgeB.getD 0 0 := by
  have hms : ((clipEdgeB.map (fun v => v * v)).sum / clipEdgeB.length : ℝ) = 1 := by
    norm_num [clipEdgeB]
  have hrms : rmsOf clipEdgeB = 1 := by
    unfold rmsOf
    rw [hms, Real.sqrt_one]
  have hd0 : clipEdgeB.getD 0 0 = 1 / 2 := rfl
  have habs : |clipEdgeB.getD 0 0| = 1 / 2 := by
    rw [hd0]
    exact abs_of_nonneg (by norm_num)
  have hcode : ¬ (rmsOf clipEdgeB * clipPercentOf false < |clipEdgeB.getD 0 0|) := by
    rw [hrms, habs]
    norm_num [clipPercentOf]
  have hclaim : ¬ (|clipEdgeB.getD 0 0| < rmsOf clipEdgeB * clipPercentOf false) := by
    rw [hrms, habs]
    norm_num [clipPercentOf]
  have hc : (clippedOf clipEdgeB false).getD 0 0 = 0 := by
    rw [clippedOf_getD, if_neg hcode]
  refine ⟨?_, hclaim, hd0, hc, ?_⟩
  · rintro ⟨_, hlt⟩
    rw [hrms] at hlt
    norm_num [rmsThresholdOf] at hlt
  · rw [hc, hd0]
    norm_num

theorem selectedPeak_cons (p₀ : ℤ × ℝ) (rest : List (ℤ × ℝ)) :
    selectedPeak (p₀ :: rest) =
      some (((p₀ :: rest).find?
        (fun p => decide (p.2 ≥ globalMaxVal p₀ rest * 0.85))).getD p₀) := rfl

theorem selectedPeak_single (p : ℤ × ℝ) : selectedPeak [p] = some p := by
  rw [selectedPeak_cons]
  cases hf : [p].find? (fun q => decide (q.2 ≥ globalMaxVal p [] * 0.85)) with
  | none => rfl
  | some x =>
    have hx : x ∈ [p] := List.mem_of_find?_eq_some hf
    simp only [List.mem_singleton] at hx
    simp [hx]

/-- **C1** (amended): whenever the peak list of a `detectPitch` call is
nonempty, the selected peak is a member of the list; if the maximum peak value
is nonnegative (always the case for genuinely periodic input), the selected
peak is the one with the smallest lag among all peaks whose value is at least
0.85 times the maximum — and such a peak exists, since the maximum itself
qualifies; if instead every peak value is strictly below 0.85 times the
maximum (possible only when the maximum peak value is negative), the fallback
`peaks[0]` — still the smallest-lag peak — is selected. -/
theorem detectPitch_peak_selection (b : List ℝ) (sr mn mx : ℝ) (m : Bool)
    (p₀ q : ℤ × ℝ) (rest : List (ℤ × ℝ))
    (hpk : peaksOfCall b sr mn mx m = p₀ :: rest)
    (hsel : selectedPeak (p₀ :: rest) = some q) :
    q ∈ p₀ :: rest ∧
    (0 ≤ globalMaxVal p₀ rest →
      q.2 ≥ globalMaxVal p₀ rest * 0.85 ∧
      ∀ r ∈ p₀ :: rest, r.2 ≥ globalMaxVal p₀ rest * 0.85 → q.1 ≤ r.1) ∧
    ((∀ r ∈ p₀ :: rest, ¬ r.2 ≥ globalMaxVal p₀ rest * 0.85) → q = p₀) := by
  have hsorted : (p₀ :: rest).Pairwise (fun p q => p.1 < q.1) := by
    rw [← hpk]
    unfold peaksOfCall
    exact peaksOf_sorted _ _
  refine ⟨selectedPeak_mem hsel, ?_, ?_⟩
  · intro hmax
    obtain ⟨pm, hpm, hpmv⟩ := globalMaxVal_mem p₀ rest
    have hqual : (fun p : ℤ × ℝ => decide (p.2 ≥ globalMaxVal p₀ rest * 0.85)) pm = true := by
      rw [decide_eq_true_eq, ← hpmv]
      linarith
    rw [selectedPeak_cons] at hsel
    cases hf : (p₀ :: rest).find? (fun p => decide (p.2 ≥ globalMaxVal p₀ rest * 0.85)) with
    | none =>
      exact absurd hqual (by simpa using List.find?_eq_none.mp hf pm hpm)
    | some x =>
      rw [hf] at hsel
      simp only [Option.getD_some, Option.some.injEq] at hsel
      subst hsel
      constructor
      · have hx := List.find?_some hf
        rwa [decide_eq_true_eq] at hx
      · intro r hr hrq
        exact find?_min_of_sorted hsorted hf r hr (by rw [decide_eq_true_eq]; exact hrq)
  · intro hnone
    rw [selectedPeak_cons] at hsel
    cases hf : (p₀ :: rest).find? (fun p => decide (p.2 ≥ globalMaxVal p₀ rest * 0.85)) with
    | none =>
      rw [hf] at hsel
      simpa using hsel.symm
    | some x =>
      have hx := List.find?_some hf
      rw [decide_eq_true_eq] at hx
      exact absurd hx (hnone x (List.mem_of_find?_eq_some hf))

theorem refinedOffset_interior {minP : ℤ} {cv : List ℝ} {i : ℕ}
    (hi0 : 0 < i) (hi1 : i + 1 < cv.length)
    (hy0 : cv.getD i 0 > cv.getD (i - 1) 0) (hy2 : cv.getD i 0 > cv.getD (i + 1) 0) :
    |refinedOffset minP cv (minP + (i : ℤ)) - ((minP : ℝ) + (i : ℝ))| ≤ 1 / 2 := by
  unfold refinedOffset
  rw [if_pos (⟨by omega, by omega⟩ :
    minP + (i : ℤ) > minP ∧ minP + (i : ℤ) < minP + (cv.length : ℤ) - 1)]
  dsimp only
  rw [show (minP + (i : ℤ) - minP).toNat = i by omega]
  rw [if_pos (⟨hi0, by omega⟩ : 0 < i ∧ (i : ℤ) < (cv.length : ℤ) - 1)]
  by_cases hden : |cv.getD (i - 1) 0 - 2 * cv.getD i 0 + cv.getD (i + 1) 0| > 1e-10
  · rw [if_pos hden]
    have hd := parabolic_delta_lt (show cv.getD (i - 1) 0 < cv.getD i 0 from hy0)
      (show cv.getD (i + 1) 0 < cv.getD i 0 from hy2)
    push_cast
    have heq : ((minP : ℝ) + (i : ℝ) +
        (cv.getD (i - 1) 0 - cv.getD (i + 1) 0) /
          (2 * (cv.getD (i - 1) 0 - 2 * cv.getD i 0 + cv.getD (i + 1) 0)) -
        ((minP : ℝ) + (i : ℝ))) =
        (cv.getD (i - 1) 0 - cv.getD (i + 1) 0) /
          (2 * (cv.getD (i - 1) 0 - 2 * cv.getD i 0 + cv.getD (i + 1) 0)) := by
      ring
    rw [heq]
    linarith [hd]
  · rw [if_neg hden]
    push_cast
    simp

theorem corrValuesOf_length (b : List ℝ) (sr mn mx : ℝ) (m : Bool) :
    (corrValuesOf b sr mn mx m).length =
      (min (maxPeriodOf sr mn) (((b.length : ℤ) + 1) / 2) - minPeriodOf sr mx).toNat := by
  unfold corrValuesOf lagsOf
  rw [List.length_map, List.length_map, List.length_range]

/-- **C3**: whenever `detectPitch` returns a frequency `f` (with positive
sample rate and `0 < minFrequency < maxFrequency`), the returned period
`sampleRate / f` deviates from the interval
`[sampleRate/maxFrequency, sampleRate/minFrequency]` by at most one sample. -/
theorem detectPitch_freq_in_range (b : List ℝ) (sr mn mx : ℝ) (m : Bool) (f : ℝ)
    (hsr : 0 < sr) (hmn : 0 < mn) (hmm : mn < mx)
    (h : detectPitch b sr mn mx m = some f) :
    sr / mx - 1 ≤ sr / f ∧ sr / f ≤ sr / mn + 1 := by
  have hmx : 0 < mx := lt_trans hmn hmm
  unfold detectPitch at h
  by_cases hg : rmsGateFires b m
  · rw [if_pos hg] at h
    exact absurd h (by simp)
  rw [if_neg hg] at h
  split at h
  · exact absurd h (by simp)
  next bp hsel =>
    split at h
    · exact absurd h (by simp)
    next hth =>
      have hbp : bp ∈ peaksOfCall b sr mn mx m := selectedPeak_mem hsel
      unfold peaksOfCall at hbp
      obtain ⟨i, hi0, hi1, hy0, hy2, hbpeq⟩ := mem_peaksOf hbp
      have hoff : bp.1 = minPeriodOf sr mx + (i : ℤ) := by rw [hbpeq]
      have hf' : f = sr / refinedOffset (minPeriodOf sr mx)
          (corrValuesOf b sr mn mx m) bp.1 := by
        injection h with h'
        exact h'.symm
      have habs : |refinedOffset (minPeriodOf sr mx) (corrValuesOf b sr mn mx m) bp.1 -
          ((minPeriodOf sr mx : ℝ) + (i : ℝ))| ≤ 1 / 2 := by
        rw [hoff]
        exact refinedOffset_interior hi0 hi1 hy0 hy2
      obtain ⟨hrlo, hrhi⟩ := abs_le.mp habs
      have hminP0 : 0 ≤ minPeriodOf sr mx :=
        Int.floor_nonneg.mpr (le_of_lt (div_pos hsr hmx))
      have hup : minPeriodOf sr mx + (i : ℤ) ≤ maxPeriodOf sr mn - 2 := by
        have hL := corrValuesOf_length b sr mn mx m
        omega
      have hupR : (minPeriodOf sr mx : ℝ) + (i : ℝ) ≤ (maxPeriodOf sr mn : ℝ) - 2 := by
        exact_mod_cast hup
      have hceil : (maxPeriodOf sr mn : ℝ) < sr / mn + 1 := by
        unfold maxPeriodOf
        exact Int.ceil_lt_add_one _
      have hfloor : sr / mx - 1 < (minPeriodOf sr mx : ℝ) := by
        unfold minPeriodOf
        exact Int.sub_one_lt_floor _
      have hi1R : (1 : ℝ) ≤ (i : ℝ) := by exact_mod_cast hi0
      have hminP0R : (0 : ℝ) ≤ (minPeriodOf sr mx : ℝ) := by exact_mod_cast hminP0
      have hrpos : 0 < refinedOffset (minPeriodOf sr mx) (corrValuesOf b sr mn mx m) bp.1 := by
        linarith
      have hsrf : sr / f = refinedOffset (minPeriodOf sr mx) (corrValuesOf b sr mn mx m) bp.1 := by
        rw [hf', div_div_eq_mul_div, mul_comm, mul_div_assoc, div_self (ne_of_gt hsr), mul_one]
      rw [hsrf]
      constructor
      · linarith
      · linarith

theorem comb8_nc1 : normCorrAt comb8 1 = 0 := by
  have h : normCorrAt comb8 1 =
      (1 * 0 + (0 * 1 + (1 * 0 + (0 * 1 + (1 * 0 + (0 * 1 + (1 * 0 + 0))))))) / Real.sqrt ((1 * 1 + (0 * 0 + (1 * 1 + (0 * 0 + (1 * 1 + (0 * 0 + (1 * 1 + 0))))))) * (0 * 0 + (1 * 1 + (0 * 0 + (1 * 1 + (0 * 0 + (1 * 1 + (0 * 0 + 0))))))) + 1e-10) := rfl
  rw [h, show (1 * 0 + (0 * 1 + (1 * 0 + (0 * 1 + (1 * 0 + (0 * 1 + (1 * 0 + 0)))))) : ℝ) = 0 by norm_num, zero_div]

theorem comb8_nc2 : normCorrAt comb8 2 = 3 / Real.sqrt (9 + 1e-10) := by
  have h : normCorrAt comb8 2 =
      (1 * 1 + (0 * 0 + (1 * 1 + (0 * 0 + (1 * 1 + (0 * 0 + 0)))))) / Real.sqrt ((1 * 1 + (0 * 0 + (1 * 1 + (0 * 0 + (1 * 1 + (0 * 0 + 0)))))) * (1 * 1 + (0 * 0 + (1 * 1 + (0 * 0 + (1 * 1 + (0 * 0 + 0)))))) + 1e-10) := rfl
  rw [h, show (1 * 1 + (0 * 0 + (1 * 1 + (0 * 0 + (1 * 1 + (0 * 0 + 0))))) : ℝ) = 3 by norm_num,
    show ((3 : ℝ) * 3 + 1e-10) = 9 + 1e-10 by norm_num]

theorem comb8_nc3 : normCorrAt comb8 3 = 0 := by
  have h : normCorrAt comb8 3 =
      (1 * 0 + (0 * 1 + (1 * 0 + (0 * 1 + (1 * 0 + 0))))) / Real.sqrt ((1 * 1 + (0 * 0 + (1 * 1 + (0 * 0 + (1 * 1 + 0))))) * (0 * 0 + (1 * 1 + (0 * 0 + (1 * 1 + (0 * 0 + 0))))) + 1e-10) := rfl
  rw [h, show (1 * 0 + (0 * 1 + (1 * 0 + (0 * 1 + (1 * 0 + 0)))) : ℝ) = 0 by norm_num, zero_div]

theorem negPeak_nc1 : normCorrAt negPeakB 1 = (-1) / Real.sqrt (81 + 1e-10) := by
  have h : normCorrAt negPeakB 1 =
      (1 * 1 + (1 * (-1) + ((-1) * 1 + (1 * (-1) + ((-1) * (-1) + ((-1) * 1 + (1 * 1 + (1 * 1 + (1 * (-1) + 0))))))))) / Real.sqrt ((1 * 1 + (1 * 1 + ((-1) * (-1) + (1 * 1 + ((-1) * (-1) + ((-1) * (-1) + (1 * 1 + (1 * 1 + (1 * 1 + 0))))))))) * (1 * 1 + ((-1) * (-1) + (1 * 1 + ((-1) * (-1) + ((-1) * (-1) + (1 * 1 + (1 * 1 + (1 * 1 + ((-1) * (-1) + 0))))))))) + 1e-10) := rfl
  rw [h, show (1 * 1 + (1 * (-1) + ((-1) * 1 + (1 * (-1) + ((-1) * (-1) + ((-1) * 1 + (1 * 1 + (1 * 1 + (1 * (-1) + 0)))))))) : ℝ) = (-1) by norm_num,
    show ((1 * 1 + (1 * 1 + ((-1) * (-1) + (1 * 1 + ((-1) * (-1) + ((-1) * (-1) + (1 * 1 + (1 * 1 + (1 * 1 + 0))))))))) * (1 * 1 + ((-1) * (-1) + (1 * 1 + ((-1) * (-1) + ((-1) * (-1) + (1 * 1 + (1 * 1 + (1 * 1 + ((-1) * (-1) + 0))))))))) + 1e-10 : ℝ) = 81 + 1e-10 by norm_num]

theorem negPeak_nc2 : normCorrAt negPeakB 2 = (-2) / Real.sqrt (64 + 1e-10) := by
  have h : normCorrAt negPeakB 2 =
      (1 * (-1) + (1 * 1 + ((-1) * (-1) + (1 * (-1) + ((-1) * 1 + ((-1) * 1 + (1 * 1 + (1 * (-1) + 0)))))))) / Real.sqrt ((1 * 1 + (1 * 1 + ((-1) * (-1) + (1 * 1 + ((-1) * (-1) + ((-1) * (-1) + (1 * 1 + (1 * 1 + 0)))))))) * ((-1) * (-1) + (1 * 1 + ((-1) * (-1) + ((-1) * (-1) + (1 * 1 + (1 * 1 + (1 * 1 + ((-1) * (-1) + 0)))))))) + 1e-10) := rfl
  rw [h, show (1 * (-1) + (1 * 1 + ((-1) * (-1) + (1 * (-1) + ((-1) * 1 + ((-1) * 1 + (1 * 1 + (1 * (-1) + 0))))))) : ℝ) = (-2) by norm_num,
    show ((1 * 1 + (1 * 1 + ((-1) * (-1) + (1 * 1 + ((-1) * (-1) + ((-1) * (-1) + (1 * 1 + (1 * 1 + 0)))))))) * ((-1) * (-1) + (1 * 1 + ((-1) * (-1) + ((-1) * (-1) + (1 * 1 + (1 * 1 + (1 * 1 + ((-1) * (-1) + 0)))))))) + 1e-10 : ℝ) = 64 + 1e-10 by norm_num]

theorem negPeak_nc3 : normCorrAt negPeakB 3 = (-1) / Real.sqrt (49 + 1e-10) := by
  have h : normCorrAt negPeakB 3 =
      (1 * 1 + (1 * (-1) + ((-1) * (-1) + (1 * 1 + ((-1) * 1 + ((-1) * 1 + (1 * (-1) + 0))))))) / Real.sqrt ((1 * 1 + (1 * 1 + ((-1) * (-1) + (1 * 1 + ((-1) * (-1) + ((-1) * (-1) + (1 * 1 + 0))))))) * (1 * 1 + ((-1) * (-1) + ((-1) * (-1) + (1 * 1 + (1 * 1 + (1 * 1 + ((-1) * (-1) + 0))))))) + 1e-10) := rfl
  rw [h, show (1 * 1 + (1 * (-1) + ((-1) * (-1) + (1 * 1 + ((-1) * 1 + ((-1) * 1 + (1 * (-1) + 0)))))) : ℝ) = (-1) by norm_num,
    show ((1 * 1 + (1 * 1 + ((-1) * (-1) + (1 * 1 + ((-1) * (-1) + ((-1) * (-1) + (1 * 1 + 0))))))) * (1 * 1 + ((-1) * (-1) + ((-1) * (-1) + (1 * 1 + (1 * 1 + (1 * 1 + ((-1) * (-1) + 0))))))) + 1e-10 : ℝ) = 49 + 1e-10 by norm_num]

theorem negPeak_nc4 : normCorrAt negPeakB 4 = (-2) / Real.sqrt (36 + 1e-10) := by
  have h : normCorrAt negPeakB 4 =
      (1 * (-1) + (1 * (-1) + ((-1) * 1 + (1 * 1 + ((-1) * 1 + ((-1) * (-1) + 0)))))) / Real.sqrt ((1 * 1 + (1 * 1 + ((-1) * (-1) + (1 * 1 + ((-1) * (-1) + ((-1) * (-1) + 0)))))) * ((-1) * (-1) + ((-1) * (-1) + (1 * 1 + (1 * 1 + (1 * 1 + ((-1) * (-1) + 0)))))) + 1e-10) := rfl
  rw [h, show (1 * (-1) + (1 * (-1) + ((-1) * 1 + (1 * 1 + ((-1) * 1 + ((-1) * (-1) + 0))))) : ℝ) = (-2) by norm_num,
    show ((1 * 1 + (1 * 1 + ((-1) * (-1) + (1 * 1 + ((-1) * (-1) + ((-1) * (-1) + 0)))))) * ((-1) * (-1) + ((-1) * (-1) + (1 * 1 + (1 * 1 + (1 * 1 + ((-1) * (-1) + 0)))))) + 1e-10 : ℝ) = 36 + 1e-10 by norm_num]

theorem comb8_rms : rmsOf comb8 = Real.sqrt (1 / 2) := by
  unfold rmsOf
  rw [show ((comb8.map (fun v => v * v)).sum / (comb8.length : ℝ)) = 1 / 2 by
    norm_num [comb8]]

theorem comb8_gate : ¬ rmsGateFires comb8 false := by
  rintro ⟨-, hlt⟩
  rw [comb8_rms] at hlt
  have h2 : (0.01 : ℝ) ≤ Real.sqrt (1 / 2) :=
    (Real.le_sqrt (by norm_num) (by norm_num)).mpr (by norm_num)
  rw [show rmsThresholdOf false = 0.01 from rfl] at hlt
  linarith

theorem comb8_clip : clippedOf comb8 false = comb8 := by
  have hs2 : Real.sqrt (1 / 2) < 2 := by
    rw [Real.sqrt_lt' (by norm_num)]
    norm_num
  have h1 : |(1 : ℝ)| > Real.sqrt (1 / 2) * clipPercentOf false := by
    rw [abs_one, show clipPercentOf false = 0.5 from rfl]
    nlinarith [Real.sqrt_nonneg (1 / 2 : ℝ)]
  have h0 : ¬ (|(0 : ℝ)| > Real.sqrt (1 / 2) * clipPercentOf false) := by
    rw [abs_zero]
    exact not_lt.mpr (mul_nonneg (Real.sqrt_nonneg _) (clipPercentOf_nonneg false))
  unfold clippedOf
  rw [comb8_rms]
  simp only [comb8, List.map_cons, List.map_nil, if_pos h1, if_neg h0]

theorem minP100 : minPeriodOf 100 100 = 1 := by
  unfold minPeriodOf
  rw [Int.floor_eq_iff]
  norm_num

theorem comb8_maxP : maxPeriodOf 100 25 = 4 := by
  unfold maxPeriodOf
  rw [Int.ceil_eq_iff]
  norm_num

theorem negPeak_maxP : maxPeriodOf 100 20 = 5 := by
  unfold maxPeriodOf
  rw [Int.ceil_eq_iff]
  norm_num

theorem comb8_cv : corrValuesOf comb8 100 25 100 false =
    [0, 3 / Real.sqrt (9 + 1e-10), 0] := by
  unfold corrValuesOf
  rw [minP100, comb8_maxP, comb8_clip,
    show lagsOf 1 4 comb8.length = [1, 2, 3] by decide]
  simp only [List.map_cons, List.map_nil]
  rw [comb8_nc1, comb8_nc2, comb8_nc3]

theorem peaksOf_three {w : ℝ} (hw : 0 < w) : peaksOf 1 [0, w, 0] = [(2, w)] := by
  unfold peaksOf
  rw [show ([0, w, 0] : List ℝ).length = 3 from rfl,
    show List.range 3 = [0, 1, 2] from rfl]
  rw [List.filter_cons_of_neg (by simp),
    List.filter_cons_of_pos (by
      simp only [decide_eq_true_eq]
      exact ⟨by norm_num, by norm_num, hw, hw⟩),
    List.filter_cons_of_neg (by simp), List.filter_nil]
  simp only [List.map_cons, List.map_nil]
  rw [show ([0, w, 0] : List ℝ).getD 1 0 = w from rfl]
  norm_num

theorem comb8_peaks : peaksOfCall comb8 100 25 100 false =
    [(2, 3 / Real.sqrt (9 + 1e-10))] := by
  unfold peaksOfCall
  rw [comb8_cv, minP100]
  exact peaksOf_three (div_pos (by norm_num) (Real.sqrt_pos.mpr (by norm_num)))

theorem comb8_w_ge : (0.7 : ℝ) ≤ 3 / Real.sqrt (9 + 1e-10) := by
  have hpos : 0 < Real.sqrt (9 + 1e-10) := Real.sqrt_pos.mpr (by norm_num)
  rw [le_div_iff₀ hpos]
  have hle : Real.sqrt (9 + 1e-10) ≤ 4 := by
    rw [show (4 : ℝ) = Real.sqrt (4 ^ 2) from (Real.sqrt_sq (by norm_num)).symm]
    exact Real.sqrt_le_sqrt (by norm_num)
  nlinarith [Real.sqrt_nonneg (9 + 1e-10 : ℝ)]

theorem refinedOffset_comb (w : ℝ) : refinedOffset 1 [0, w, 0] 2 = 2 := by
  unfold refinedOffset
  rw [if_pos (⟨by norm_num, by norm_num⟩ :
    (2 : ℤ) > 1 ∧ (2 : ℤ) < 1 + (([0, w, 0] : List ℝ).length : ℤ) - 1)]
  dsimp only
  rw [show ((2 : ℤ) - 1).toNat = 1 from rfl]
  rw [if_pos (⟨by norm_num, by norm_num⟩ :
    0 < 1 ∧ ((1 : ℕ) : ℤ) < (([0, w, 0] : List ℝ).length : ℤ) - 1)]
  rw [show ([0, w, 0] : List ℝ).getD (1 - 1) 0 = 0 from rfl,
    show ([0, w, 0] : List ℝ).getD (1 + 1) 0 = 0 from rfl]
  split_ifs
  · norm_num
  · norm_num

theorem comb8_detect : detectPitch comb8 100 25 100 false = some 50 := by
  unfold detectPitch
  rw [if_neg comb8_gate, comb8_peaks, selectedPeak_single]
  dsimp only
  rw [if_neg (not_lt.mpr (show corrThresholdOf false ≤ (2, 3 / Real.sqrt (9 + 1e-10)).2 from
    comb8_w_ge))]
  rw [minP100, comb8_cv]
  rw [refinedOffset_comb]
  norm_num

theorem negPeak_rms : rmsOf negPeakB = 1 := by
  unfold rmsOf
  rw [show ((negPeakB.map (fun v => v * v)).sum / (negPeakB.length : ℝ)) = 1 by
    norm_num [negPeakB]]
  exact Real.sqrt_one

theorem negPeak_gate : ¬ rmsGateFires negPeakB false := by
  rintro ⟨-, hlt⟩
  rw [negPeak_rms, show rmsThresholdOf false = 0.01 from rfl] at hlt
  norm_num at hlt

theorem negPeak_clip : clippedOf negPeakB false = negPeakB := by
  have h1 : |(1 : ℝ)| > 1 * clipPercentOf false := by
    rw [abs_one, show clipPercentOf false = 0.5 from rfl]
    norm_num
  have hm1 : |(-1 : ℝ)| > 1 * clipPercentOf false := by
    rw [show |(-1 : ℝ)| = 1 by norm_num, show clipPercentOf false = 0.5 from rfl]
    norm_num
  unfold clippedOf
  rw [negPeak_rms]
  simp only [negPeakB, List.map_cons, List.map_nil, if_pos h1, if_pos hm1]

theorem negPeak_cv : corrValuesOf negPeakB 100 20 100 false =
    [(-1) / Real.sqrt (81 + 1e-10), (-2) / Real.sqrt (64 + 1e-10),
      (-1) / Real.sqrt (49 + 1e-10), (-2) / Real.sqrt (36 + 1e-10)] := by
  unfold corrValuesOf
  rw [minP100, negPeak_maxP, negPeak_clip,
    show lagsOf 1 5 negPeakB.length = [1, 2, 3, 4] by decide]
  simp only [List.map_cons, List.map_nil]
  rw [negPeak_nc1, negPeak_nc2, negPeak_nc3, negPeak_nc4]

theorem peaksOf_four {v1 v2 v3 v4 : ℝ} (h21 : v2 ≤ v1) (h32 : v2 < v3) (h34 : v4 < v3) :
    peaksOf 1 [v1, v2, v3, v4] = [(3, v3)] := by
  unfold peaksOf
  rw [show ([v1, v2, v3, v4] : List ℝ).length = 4 from rfl,
    show List.range 4 = [0, 1, 2, 3] from rfl]
  rw [List.filter_cons_of_neg (by simp),
    List.filter_cons_of_neg (by
      simp only [decide_eq_true_eq]
      rintro ⟨-, -, hlt, -⟩
      exact absurd hlt (not_lt.mpr h21)),
    List.filter_cons_of_pos (by
      simp only [decide_eq_true_eq]
      exact ⟨by norm_num, by norm_num, h32, h34⟩),
    List.filter_cons_of_neg (by simp), List.filter_nil]
  simp only [List.map_cons, List.map_nil]
  rw [show ([v1, v2, v3, v4] : List ℝ).getD 2 0 = v3 from rfl]
  norm_num

theorem negPeak_peaks : peaksOfCall negPeakB 100 20 100 false =
    [((3 : ℤ), (-1) / Real.sqrt (49 + 1e-10))] := by
  have h21 : (-2 : ℝ) / Real.sqrt (64 + 1e-10) ≤ (-1) / Real.sqrt (81 + 1e-10) := by
    have k : (1 : ℝ) * Real.sqrt (64 + 1e-10) < 2 * Real.sqrt (81 + 1e-10) :=
      mul_sqrt_lt_mul_sqrt (by norm_num) (by norm_num) (by norm_num) (by norm_num)
    exact le_of_lt (div_sqrt_lt_div_sqrt (by norm_num) (by norm_num) (by linarith))
  have h32 : (-2 : ℝ) / Real.sqrt (64 + 1e-10) < (-1) / Real.sqrt (49 + 1e-10) := by
    have k : (1 : ℝ) * Real.sqrt (64 + 1e-10) < 2 * Real.sqrt (49 + 1e-10) :=
      mul_sqrt_lt_mul_sqrt (by norm_num) (by norm_num) (by norm_num) (by norm_num)
    exact div_sqrt_lt_div_sqrt (by norm_num) (by norm_num) (by linarith)
  have h34 : (-2 : ℝ) / Real.sqrt (36 + 1e-10) < (-1) / Real.sqrt (49 + 1e-10) := by
    have k : (1 : ℝ) * Real.sqrt (36 + 1e-10) < 2 * Real.sqrt (49 + 1e-10) :=
      mul_sqrt_lt_mul_sqrt (by norm_num) (by norm_num) (by norm_num) (by norm_num)
    exact div_sqrt_lt_div_sqrt (by norm_num) (by norm_num) (by linarith)
  unfold peaksOfCall
  rw [negPeak_cv, minP100]
  exact peaksOf_four h21 h32 h34

/-- **C1** (counterexample to the claim as stated): for the ±1 buffer
`negPeakB` with `sampleRate = 100`, `minFrequency = 20`, `maxFrequency = 100`,
the peak list is the nonempty `[(3, -1/√(49+1e-10))]`, whose single peak has a
negative value; the selected peak is that peak, yet its value is *below* 0.85
times the maximum peak value (0.85·max > max for a negative max), so the set
of peaks within the acceptance band is empty and the claim's selected peak
does not exist. -/
theorem detectPitch_peak_band_cex :
    peaksOfCall negPeakB 100 20 100 false =
      [((3 : ℤ), (-1) / Real.sqrt (49 + 1e-10))] ∧
    selectedPeak [((3 : ℤ), (-1) / Real.sqrt (49 + 1e-10))] =
      some ((3 : ℤ), (-1) / Real.sqrt (49 + 1e-10)) ∧
    ¬ ((-1) / Real.sqrt (49 + 1e-10) ≥
        globalMaxVal ((3 : ℤ), (-1) / Real.sqrt (49 + 1e-10)) [] * 0.85) := by
  refine ⟨negPeak_peaks, selectedPeak_single _, ?_⟩
  have hneg : (-1 : ℝ) / Real.sqrt (49 + 1e-10) < 0 :=
    div_neg_of_neg_of_pos (by norm_num) (Real.sqrt_pos.mpr (by norm_num))
  rw [show globalMaxVal ((3 : ℤ), (-1) / Real.sqrt (49 + 1e-10)) [] =
      (-1) / Real.sqrt (49 + 1e-10) from rfl]
  intro hge
  linarith

theorem detectPitch_peak_selection_witness :
    ((2 : ℤ), 3 / Real.sqrt (9 + 1e-10)) ∈ [((2 : ℤ), 3 / Real.sqrt (9 + 1e-10))] ∧
    (0 ≤ globalMaxVal ((2 : ℤ), 3 / Real.sqrt (9 + 1e-10)) [] →
      ((2 : ℤ), 3 / Real.sqrt (9 + 1e-10)).2 ≥
          globalMaxVal ((2 : ℤ), 3 / Real.sqrt (9 + 1e-10)) [] * 0.85 ∧
      ∀ r ∈ [((2 : ℤ), 3 / Real.sqrt (9 + 1e-10))],
        r.2 ≥ globalMaxVal ((2 : ℤ), 3 / Real.sqrt (9 + 1e-10)) [] * 0.85 →
          ((2 : ℤ), 3 / Real.sqrt (9 + 1e-10)).1 ≤ r.1) ∧
    ((∀ r ∈ [((2 : ℤ), 3 / Real.sqrt (9 + 1e-10))],
        ¬ r.2 ≥ globalMaxVal ((2 : ℤ), 3 / Real.sqrt (9 + 1e-10)) [] * 0.85) →
      ((2 : ℤ), 3 / Real.sqrt (9 + 1e-10)) = ((2 : ℤ), 3 / Real.sqrt (9 + 1e-10))) :=
  detectPitch_peak_selection comb8 100 25 100 false _ _ [] comb8_peaks
    (selectedPeak_single _)

theorem detectPitch_freq_in_range_witness :
    ((0 : ℝ) < 100) ∧ ((0 : ℝ) < 25) ∧ ((25 : ℝ) < 100) ∧
    ((100 : ℝ) / 100 - 1 ≤ 100 / 50 ∧ (100 : ℝ) / 50 ≤ 100 / 25 + 1) :=
  ⟨by norm_num, by norm_num, by norm_num,
    detectPitch_freq_in_range comb8 100 25 100 false 50 (by norm_num) (by norm_num)
      (by norm_num) comb8_detect⟩
